import Mathlib

/-!
Verification of the `hl7` Go package (HL7v2 message parsing).

The embedding works at the byte level: a Go `[]byte` is a `List Nat`
(each element a byte value 0..255), and Go strings are byte lists as
well, written with the helper `str`. Fallible Go code returns
`Except GoErr`/`Option`; a Go runtime panic is modelled as `none` of an
`Option` result. `segment.go` and `location.go` of the repository are
not in the sources; the definitions embedding them are modelled from the
spec and say so in their doc comments.
-/

set_option maxRecDepth 40000

namespace HL7

/-- Decidable equality for `Except`, needed to evaluate the theorems that
compare computed `Except` results with expected ones. -/
instance {e a : Type} [DecidableEq e] [DecidableEq a] :
    DecidableEq (Except e a) := fun x y =>
  match x, y with
  | Except.ok u, Except.ok v =>
    if h : u = v then isTrue (by rw [h])
    else isFalse (fun hh => h (Except.ok.inj hh))
  | Except.error u, Except.error v =>
    if h : u = v then isTrue (by rw [h])
    else isFalse (fun hh => h (Except.error.inj hh))
  | Except.ok _, Except.error _ => isFalse (fun hh => Except.noConfusion hh)
  | Except.error _, Except.ok _ => isFalse (fun hh => Except.noConfusion hh)

/-- Converts a Lean string literal to the byte list the embedding works on
(all inputs in this development are ASCII, so `Char.toNat` is the byte). -/
def str (s : String) : List Nat := s.data.map Char.toNat

/-- The only error values appearing in the package: `io.EOF` (the single
error value `message.go` ever creates, used both for the short-buffer
construction failure and for end-of-stream), and the malformed-location
failure of the spec-modelled location parser (§7(e) of the spec). -/
inductive GoErr where
  | ioEOF
  | badLocation
deriving DecidableEq

/-- `unicode.IsSpace` restricted to byte values (runes below 256): tab,
LF, vertical tab, form feed, CR, space, NEL (0x85) and NBSP (0xA0). -/
def isSpaceB (b : Nat) : Bool :=
  b = 9 || b = 10 || b = 11 || b = 12 || b = 13 || b = 32 || b = 133 || b = 160

/-- The byte-accumulation loop of `Message.ReadSegment` (message.go:66-85):
reads bytes one at a time; while the buffer is empty, whitespace bytes are
skipped; a CR (13) or LF (10) byte terminates the segment (consumed, not
included); end of input terminates the loop. Returns the accumulated
buffer and the remaining input. -/
def segLoop : List Nat → List Nat → List Nat × List Nat
  | acc, [] => (acc, [])
  | acc, b :: t =>
    if acc = [] ∧ isSpaceB b then segLoop acc t
    else if b = 13 ∨ b = 10 then (acc, t)
    else segLoop (acc ++ [b]) t

/-- `Message.ReadSegment` (message.go:61-93) as a state transformer on the
remaining input bytes: runs the loop from an empty buffer; an empty buffer
at the end is reported as `io.EOF` (message.go:89-91), otherwise the raw
segment bytes are returned (the delimiters a Go `Segment` carries alongside
live in the `Message`/`PMessage` and are passed at use sites). -/
def readSegment (s : List Nat) : Except GoErr (List Nat) × List Nat :=
  let r := segLoop [] s
  if r.1 = [] then (Except.error GoErr.ioEOF, r.2) else (Except.ok r.1, r.2)

/-- Fuel-indexed iteration of `readSegment`, as performed by
`Message.Parse` (message.go:39-50): collect segments until the first
error (always `io.EOF`). The fuel is an upper bound on the number of
reads; `readAll` supplies enough. -/
def readAllAux : Nat → List Nat → List (List Nat)
  | 0, _ => []
  | fuel + 1, s =>
    match readSegment s with
    | (Except.error _, _) => []
    | (Except.ok seg, s2) => seg :: readAllAux fuel s2

/-- All segments of an input, in order (each successful `readSegment`
consumes at least one byte, so `length + 1` calls always suffice). -/
def readAll (l : List Nat) : List (List Nat) :=
  readAllAux (l.length + 1) l

/-- Remaining-input state after `n` calls of `ReadSegment` starting from
input `l`. -/
def stateAfter (l : List Nat) : Nat → List Nat
  | 0 => l
  | n + 1 => (readSegment (stateAfter l n)).2

/-- Result of the `(n+1)`-st `ReadSegment` call starting from input `l`. -/
def callResult (l : List Nat) (n : Nat) : Except GoErr (List Nat) :=
  (readSegment (stateAfter l n)).1

/-- The `Message` struct (message.go:22-31): the five delimiter bytes and
the unread bytes of its reader (`bufio.Reader` over the whole buffer). -/
structure Message where
  fieldSep : Nat
  compSep : Nat
  subCompSep : Nat
  repSep : Nat
  escape : Nat
  data : List Nat
deriving DecidableEq

/-- `NewMessage` (message.go:170-187): fails with `io.EOF` when fewer than
8 bytes are supplied; otherwise takes the delimiters from fixed offsets
3,4,5,6,7 (field, component, repetition, escape, subcomponent) and wraps
the whole buffer as the reader. (`repSep` embeds the Go field `repeat`,
renamed because `repeat` is a Lean keyword.) -/
def NewMessage (d : List Nat) : Except GoErr Message :=
  if d.length < 8 then Except.error GoErr.ioEOF
  else Except.ok
    { fieldSep := d.getD 3 0
      compSep := d.getD 4 0
      repSep := d.getD 5 0
      escape := d.getD 6 0
      subCompSep := d.getD 7 0
      data := d }

/-- Splits a byte list on a separator byte; never returns the empty list,
and a list without the separator splits to the one-element list holding
the whole input. -/
def splitOnByte (sep : Nat) : List Nat → List (List Nat)
  | [] => [[]]
  | b :: t =>
    if b = sep then [] :: splitOnByte sep t
    else
      match splitOnByte sep t with
      | [] => [[b]]
      | h :: r => (b :: h) :: r

/-- Modelled from the spec: `Segment.Type` (segment.go is not among the
sources). Per §3 the type is "the first field's literal text", i.e. the
bytes preceding the first occurrence of the field separator. -/
def typeOf (fsep : Nat) (raw : List Nat) : List Nat :=
  (splitOnByte fsep raw).headD []

/-- One insertion into the segment index, embedding
`m.segments[stype] = append(m.segments[stype], segment)` (message.go:49)
over an association-list model of the Go map: the segment is appended to
the entry of its tag, a fresh tag gets a new singleton entry. -/
def indexInsert : List (List Nat × List (List Nat)) → List Nat → List Nat →
    List (List Nat × List (List Nat))
  | [], key, seg => [(key, [seg])]
  | (k, v) :: t, key, seg =>
    if k = key then (k, v ++ [seg]) :: t
    else (k, v) :: indexInsert t key seg

/-- Association-list lookup for the segment index (the Go map read
`m.segments[id]`, which yields the zero value `nil` for a missing key). -/
def assocFind : List (List Nat × List (List Nat)) → List Nat →
    Option (List (List Nat))
  | [], _ => none
  | (k, v) :: t, key => if k = key then some v else assocFind t key

/-- The index `Message.Parse` builds (message.go:36-52): every segment of
the input, grouped under its type, in message order. -/
def buildIndex (fsep : Nat) (segs : List (List Nat)) :
    List (List Nat × List (List Nat)) :=
  segs.foldl (fun idx s => indexInsert idx (typeOf fsep s) s) []

/-- A materialized message: the delimiters plus the segment index that
`Parse` populated. -/
structure PMessage where
  fieldSep : Nat
  compSep : Nat
  subCompSep : Nat
  repSep : Nat
  escape : Nat
  index : List (List Nat × List (List Nat))
deriving DecidableEq

/-- `Message.Parse` (message.go:36-52) on a freshly constructed message:
drains the reader and groups the segments by type. -/
def parseMessage (m : Message) : PMessage :=
  { fieldSep := m.fieldSep
    compSep := m.compSep
    subCompSep := m.subCompSep
    repSep := m.repSep
    escape := m.escape
    index := buildIndex m.fieldSep (readAll m.data) }

/-- `Message.GetSegment` (message.go:56-58): `return m.segments[id], nil` —
the entry under the tag (the empty list for a missing tag, as for the Go
nil-map zero value), always paired with a nil error. -/
def GetSegment (m : PMessage) (id : List Nat) :
    List (List Nat) × Option GoErr :=
  ((assocFind m.index id).getD [], none)

/-- A parsed dotted-path address (location_test.go:22-26 shows the field
names `Segment`, `FieldSeq`, `Comp`, `SubComp`). -/
structure Location where
  Segment : List Nat
  FieldSeq : Nat
  Comp : Nat
  SubComp : Nat
deriving DecidableEq

/-- Parses a token of an address as a non-negative integer: a non-empty
run of decimal digit bytes. -/
def parseNatB (l : List Nat) : Option Nat :=
  if l = [] ∨ l.any (fun b => b < 48 ∨ 57 < b) then none
  else some (l.foldl (fun a b => a * 10 + (b - 48)) 0)

/-- Modelled from the spec: `NewLocation` (location.go is not among the
sources). Per §4.5 the address has the form `TAG.field[.comp[.subcomp]]`,
split on dots (byte 46): the tag is the leading token, the field index the
required second token, component and subcomponent optional and defaulting
to 0; parsing fails on a missing tag or field token or a non-numeric index
token. -/
def NewLocation (loc : List Nat) : Option Location :=
  match splitOnByte 46 loc with
  | [tag, fld] =>
    if tag = [] then none
    else (parseNatB fld).map fun f => ⟨tag, f, 0, 0⟩
  | [tag, fld, c] =>
    if tag = [] then none
    else do
      let f ← parseNatB fld
      let cn ← parseNatB c
      pure ⟨tag, f, cn, 0⟩
  | [tag, fld, c, sc] =>
    if tag = [] then none
    else do
      let f ← parseNatB fld
      let cn ← parseNatB c
      let sn ← parseNatB sc
      pure ⟨tag, f, cn, sn⟩
  | _ => none

/-- Modelled from the spec: `Segment.GetSubComponent` (segment.go is not
among the sources). Per §4.3: split the raw bytes on the field separator
(element 0 is the tag); field index 0 resolves to the tag text ignoring
the other coordinates; otherwise select the field (failing out of bounds),
then split on the repetition, component and subcomponent separators in
turn, each selection failing out of bounds, a text without a separator
splitting to itself as index 0. The §4.3 header special case (rebuilding
the encoding-characters field) coincides with plain splitting whenever the
field separator differs from the other four delimiters, as in every input
considered here; §9 leaves escape decoding open and no input here contains
escape sequences, so no un-escaping is applied. -/
def getSubComponent (m : PMessage) (raw : List Nat) (f rep c sub : Nat) :
    Option (List Nat) :=
  let fields := splitOnByte m.fieldSep raw
  if f = 0 then some (fields.headD [])
  else do
    let fld ← fields[f]?
    let rp ← (splitOnByte m.repSep fld)[rep]?
    let cp ← (splitOnByte m.compSep rp)[c]?
    (splitOnByte m.subCompSep cp)[sub]?

/-- `Message.Get` (message.go:110-120): looks the tag up (the error is
always nil), then evaluates `seg[0].GetSubComponent(l.FieldSeq, 0, l.Comp,
l.SubComp)` on the first segment. Indexing `seg[0]` on the empty slice of
an absent tag is a Go runtime panic, modelled as `none`; the discarded
`GetSubComponent` error leaves the zero-value subcomponent, whose string
is empty. -/
def Get (m : PMessage) (l : Location) : Option (List Nat × Option GoErr) :=
  let r := GetSegment m l.Segment
  match r.1 with
  | [] => none
  | s :: _ =>
    some ((getSubComponent m s l.FieldSeq 0 l.Comp l.SubComp).getD [], r.2)

/-- `Message.Find` (message.go:98-100): `Get` after parsing the address.
A malformed address is, per §7(e) of the spec, fatal to that single
lookup only: it yields an empty value and an error, which `Unmarshal`
discards. -/
def Find (m : PMessage) (loc : List Nat) :
    Option (List Nat × Option GoErr) :=
  match NewLocation loc with
  | some l => Get m l
  | none => some ([], some GoErr.badLocation)

/-- Trims leading and trailing whitespace bytes (`strings.TrimSpace`
restricted to the byte range, same space set as `isSpaceB`). -/
def trimSpace (l : List Nat) : List Nat :=
  ((l.dropWhile isSpaceB).reverse.dropWhile isSpaceB).reverse

/-- One field of an `Unmarshal` target struct: the `hl7` annotation tag
(empty when absent), whether reflection can set the field, and its
current string value. -/
structure SchemaField where
  tag : List Nat
  settable : Bool
  value : List Nat
deriving DecidableEq

/-- The body of the `Unmarshal` loop (message.go:152-164) for one target
field: an unannotated field is left alone; otherwise the address is
looked up with `Find`, the error discarded; a non-empty value is written
trimmed when the field is settable; an empty value leaves the field
unchanged. A panic inside `Find` (absent segment tag) propagates. -/
def bindField (m : PMessage) (f : SchemaField) : Option SchemaField :=
  if f.tag = [] then some f
  else
    match Find m f.tag with
    | none => none
    | some (val, _) =>
      if val ≠ [] then
        if f.settable then some { f with value := trimSpace val }
        else some f
      else some f

/-- `Message.Unmarshal` (message.go:149-167): binds every field in order
and then returns the nil error (`return nil` is its only return). A panic
in any field's lookup aborts the whole call (`none`). -/
def Unmarshal (m : PMessage) (flds : List SchemaField) :
    Option (List SchemaField × Option GoErr) :=
  (flds.mapM (bindField m)).map (fun r => (r, none))

/-- The reference message of `TestUnmarshal` (byte-exact, including the
tab indentation the tokenizer strips and the trailing tab of the OBX
line). -/
def refText : List Nat :=
  str ("MSH|^~\\&|CERNER||PriorityHealth||||ORU^R01|Q479004375T431430612|P|2.3|\n\tPID|||001677980||SMITH^CURTIS||19680219|M||||||||||929645156318|123456789|\n\tPD1||||1234567890^LAST^FIRST^M^^^^^NPI|\n\tOBR|1|341856649^HNAM_ORDERID|000002006326002362|648088^Basic Metabolic Panel|||20061122151600|||||||||1620^Hooker^Robert^L||||||20061122154733|||F|||||||||||20061122140000|\n\tOBX|1|NM|GLU^Glucose Lvl|59|mg/dL|65-99^65^99|L||||F|||20061122154733|\t\n\t")

/-- The annotated target struct of `TestUnmarshal` (fields `Id`,
`FirstName`, `LastName`, `Ehr`, all exported hence settable, all starting
at the empty-string default). -/
def refSchema : List SchemaField :=
  [⟨str ("PID.0.0"), true, []⟩,
   ⟨str ("PID.5.1"), true, []⟩,
   ⟨str ("PID.5.0"), true, []⟩,
   ⟨str ("MSH.2.0"), true, []⟩]

/-- The bound struct `TestUnmarshal` asserts. -/
def refBound : List SchemaField :=
  [⟨str ("PID.0.0"), true, str ("PID")⟩,
   ⟨str ("PID.5.1"), true, str ("CURTIS")⟩,
   ⟨str ("PID.5.0"), true, str ("SMITH")⟩,
   ⟨str ("MSH.2.0"), true, str ("CERNER")⟩]

/-- The lookup a materialized message actually serves: the segments under
a tag, the empty list for a missing tag (the `.getD []` of `GetSegment`). -/
def lookupSegs (idx : List (List Nat × List (List Nat))) (q : List Nat) :
    List (List Nat) :=
  (assocFind idx q).getD []

/-- A minimal materialized message (the 8-byte header as its only
segment), used to instantiate the universally quantified theorems. -/
def pmW : PMessage :=
  parseMessage
    { fieldSep := 124
      compSep := 94
      subCompSep := 38
      repSep := 126
      escape := 92
      data := str ("MSH|^~\\&") }

/-! ### Helper lemmas -/

theorem newMessage_short (d : List Nat) (h : d.length < 8) :
    NewMessage d = Except.error GoErr.ioEOF := by
  unfold NewMessage
  rw [if_pos h]

theorem newMessage_long (d : List Nat) (h : 8 ≤ d.length) :
    NewMessage d = Except.ok
      { fieldSep := d.getD 3 0
        compSep := d.getD 4 0
        repSep := d.getD 5 0
        escape := d.getD 6 0
        subCompSep := d.getD 7 0
        data := d } := by
  unfold NewMessage
  rw [if_neg (by omega)]

theorem segLoop_buf_empty : ∀ (input acc : List Nat),
    (segLoop acc input).1 = [] → (segLoop acc input).2 = [] := by
  intro input
  induction input with
  | nil => intro acc _; rfl
  | cons b t ih =>
    intro acc h
    by_cases h1 : acc = [] ∧ isSpaceB b
    · simp only [segLoop, if_pos h1] at h ⊢
      exact ih acc h
    · by_cases h2 : b = 13 ∨ b = 10
      · simp only [segLoop, if_neg h1, if_pos h2] at h
        exact absurd ⟨h, by rcases h2 with h2 | h2 <;> simp [h2, isSpaceB]⟩ h1
      · simp only [segLoop, if_neg h1, if_neg h2] at h ⊢
        exact ih (acc ++ [b]) h

theorem segLoop_rest_shrink : ∀ (input acc : List Nat),
    (segLoop acc input).2 = [] ∨ (segLoop acc input).2.length < input.length := by
  intro input
  induction input with
  | nil => intro acc; left; rfl
  | cons b t ih =>
    intro acc
    by_cases h1 : acc = [] ∧ isSpaceB b
    · simp only [segLoop, if_pos h1]
      rcases ih acc with h | h
      · exact Or.inl h
      · right; simp only [List.length_cons]; omega
    · by_cases h2 : b = 13 ∨ b = 10
      · simp only [segLoop, if_neg h1, if_pos h2]
        right; simp only [List.length_cons]; omega
      · simp only [segLoop, if_neg h1, if_neg h2]
        rcases ih (acc ++ [b]) with h | h
        · exact Or.inl h
        · right; simp only [List.length_cons]; omega

theorem readSegment_error_val (s : List Nat) (e : GoErr)
    (h : (readSegment s).1 = Except.error e) : e = GoErr.ioEOF := by
  unfold readSegment at h
  by_cases hb : (segLoop [] s).1 = []
  · rw [if_pos hb] at h
    exact (Except.error.inj h).symm
  · rw [if_neg hb] at h
    exact absurd h (by simp)

theorem readSegment_eof_state (s : List Nat) (e : GoErr)
    (h : (readSegment s).1 = Except.error e) : (readSegment s).2 = [] := by
  unfold readSegment at h ⊢
  by_cases hb : (segLoop [] s).1 = []
  · rw [if_pos hb]
    exact segLoop_buf_empty s [] hb
  · rw [if_neg hb] at h
    exact absurd h (by simp)

theorem readSegment_nil : readSegment [] = (Except.error GoErr.ioEOF, []) := by
  rfl

theorem readSegment_ok_nonnil (s : List Nat) (b : List Nat)
    (h : (readSegment s).1 = Except.ok b) : s ≠ [] := by
  intro hs
  subst hs
  rw [readSegment_nil] at h
  exact Except.noConfusion h

theorem readSegment_shrink (s : List Nat) :
    (readSegment s).2 = [] ∨ (readSegment s).2.length < s.length := by
  unfold readSegment
  by_cases hb : (segLoop [] s).1 = []
  · rw [if_pos hb]
    exact segLoop_rest_shrink s []
  · rw [if_neg hb]
    exact segLoop_rest_shrink s []

theorem stateAfter_shift (l : List Nat) : ∀ n : Nat,
    stateAfter l (n + 1) = stateAfter (readSegment l).2 n := by
  intro n
  induction n with
  | zero => rfl
  | succ k ihk =>
    show (readSegment (stateAfter l (k + 1))).2 = stateAfter (readSegment l).2 (k + 1)
    rw [ihk]
    rfl

theorem callResult_shift (l : List Nat) (n : Nat) :
    callResult l (n + 1) = callResult (readSegment l).2 n := by
  unfold callResult
  rw [stateAfter_shift]

theorem callResult_stable (l : List Nat) (n : Nat) (e : GoErr)
    (h : callResult l n = Except.error e) :
    callResult l (n + 1) = Except.error GoErr.ioEOF := by
  have h2 : (readSegment (stateAfter l n)).2 = [] :=
    readSegment_eof_state _ _ h
  show (readSegment (stateAfter l (n + 1))).1 = _
  have h3 : stateAfter l (n + 1) = [] := h2
  rw [h3, readSegment_nil]

theorem callResult_stable_add (l : List Nat) (n : Nat)
    (h : callResult l n = Except.error GoErr.ioEOF) :
    ∀ j : Nat, callResult l (n + j) = Except.error GoErr.ioEOF := by
  intro j
  induction j with
  | zero => exact h
  | succ k ihk => exact callResult_stable l (n + k) GoErr.ioEOF ihk

theorem readAllAux_past (fuel : Nat) : ∀ s : List Nat, s.length < fuel →
    callResult s (readAllAux fuel s).length = Except.error GoErr.ioEOF := by
  induction fuel with
  | zero => intro s h; omega
  | succ f ih =>
    intro s h
    cases hr : readSegment s with
    | mk r1 s2 =>
      cases r1 with
      | error e =>
        have haux : readAllAux (f + 1) s = [] := by
          simp only [readAllAux, hr]
        rw [haux]
        have he : e = GoErr.ioEOF :=
          readSegment_error_val s e (by rw [hr])
        show (readSegment (stateAfter s 0)).1 = _
        show (readSegment s).1 = _
        rw [hr, he]
      | ok seg =>
        have haux : readAllAux (f + 1) s = seg :: readAllAux f s2 := by
          simp only [readAllAux, hr]
        rw [haux]
        have hnn : s ≠ [] := readSegment_ok_nonnil s seg (by rw [hr])
        have hsl : 1 ≤ s.length := List.length_pos.mpr hnn
        have hlen : s2.length < f := by
          rcases readSegment_shrink s with h0 | h0 <;> rw [hr] at h0
          · simp only at h0
            rw [h0]
            simp only [List.length_nil]
            omega
          · simp only at h0
            omega
        simp only [List.length_cons]
        rw [callResult_shift, hr]
        exact ih s2 hlen

theorem lookupSegs_insert (idx : List (List Nat × List (List Nat)))
    (key : List Nat) (s : List Nat) (q : List Nat) :
    lookupSegs (indexInsert idx key s) q =
    if key = q then lookupSegs idx q ++ [s] else lookupSegs idx q := by
  induction idx with
  | nil =>
    by_cases h : key = q <;>
      simp [indexInsert, lookupSegs, assocFind, h]
  | cons p t ih =>
    obtain ⟨k, v⟩ := p
    by_cases h1 : k = key
    · subst h1
      by_cases h2 : k = q
      · subst h2
        simp [indexInsert, lookupSegs, assocFind]
      · simp [indexInsert, lookupSegs, assocFind, h2]
    · by_cases h2 : k = q
      · subst h2
        have hks : ¬key = k := fun hh => h1 hh.symm
        simp [indexInsert, lookupSegs, assocFind, h1, hks]
      · simp only [indexInsert, if_neg h1, lookupSegs, assocFind,
          if_neg h2]
        exact ih

theorem lookupSegs_build (f : Nat) : ∀ (l : List (List Nat))
    (idx : List (List Nat × List (List Nat))) (q : List Nat),
    lookupSegs (l.foldl (fun a s => indexInsert a (typeOf f s) s) idx) q =
    lookupSegs idx q ++ l.filter (fun s => typeOf f s = q) := by
  intro l
  induction l with
  | nil => intro idx q; simp
  | cons s t ih =>
    intro idx q
    rw [List.foldl_cons, ih, lookupSegs_insert]
    by_cases h : typeOf f s = q
    · rw [if_pos h, List.filter_cons_of_pos (by simpa using h)]
      simp
    · rw [if_neg h, List.filter_cons_of_neg (by simpa using h)]

/-! ### Claim theorems -/

/-- Claim C2: for every input buffer shorter than 8 bytes (including the
nil and empty buffers, both `[]` here), `NewMessage` fails with an error
(the `Except.error` branch carries no `Message`). -/
theorem claim_C2 (d : List Nat) (h : d.length < 8) :
    NewMessage d = Except.error GoErr.ioEOF :=
  newMessage_short d h

/-- Witness for C2 at the empty buffer. -/
theorem claim_C2_witness :
    ([] : List Nat).length < 8 ∧
    NewMessage [] = Except.error GoErr.ioEOF :=
  ⟨by decide, claim_C2 [] (by decide)⟩

/-- Claim C3: for every buffer of length at least 8, construction
succeeds and bytes 3,4,5,6,7 become the field, component, repetition,
escape and subcomponent separators in that order. -/
theorem claim_C3 (d : List Nat) (h : 8 ≤ d.length) :
    NewMessage d = Except.ok
      { fieldSep := d.getD 3 0
        compSep := d.getD 4 0
        repSep := d.getD 5 0
        escape := d.getD 6 0
        subCompSep := d.getD 7 0
        data := d } :=
  newMessage_long d h

/-- Witness for C3 at the minimal 8-byte buffer `MSH|^~\&`: the five
delimiters resolve to 124 `|`, 94 `^`, 126 `~`, 92 `\`, 38 `&`. -/
theorem claim_C3_witness :
    8 ≤ (str ("MSH|^~\\&")).length ∧
    NewMessage (str ("MSH|^~\\&")) = Except.ok
      { fieldSep := 124
        compSep := 94
        repSep := 126
        escape := 92
        subCompSep := 38
        data := str ("MSH|^~\\&") } :=
  ⟨by decide, (claim_C3 _ (by decide)).trans (by decide)⟩

/-- Claim C4: tokenizing the CR-joined pair `MSH|^~\&\rMSH|^~\&` yields
exactly the two raw segments `MSH|^~\&`, and the CRLF-joined pair yields
the same two segments (no extra empty segment at the boundary); both
segments carry the tag `MSH` (`typeOf` at the field separator 124, the
byte these messages declare at offset 3). -/
theorem claim_C4 :
    readAll (str ("MSH|^~\\&\rMSH|^~\\&")) =
      [str ("MSH|^~\\&"), str ("MSH|^~\\&")] ∧
    readAll (str ("MSH|^~\\&\r\nMSH|^~\\&")) =
      [str ("MSH|^~\\&"), str ("MSH|^~\\&")] ∧
    (readAll (str ("MSH|^~\\&\rMSH|^~\\&"))).map (typeOf 124) =
      [str ("MSH"), str ("MSH")] ∧
    (readAll (str ("MSH|^~\\&\r\nMSH|^~\\&"))).map (typeOf 124) =
      [str ("MSH"), str ("MSH")] := by
  refine ⟨by decide, by decide, by decide, by decide⟩

/-- Claim C5: every `ReadSegment` call at or beyond the message's true
segment count (the length of `readAll`) returns exactly the end-of-stream
signal `io.EOF`: never a different error value, and never a segment
(returned earlier or otherwise). -/
theorem claim_C5 (l : List Nat) (k : Nat) (h : (readAll l).length ≤ k) :
    callResult l k = Except.error GoErr.ioEOF := by
  have h0 : callResult l (readAll l).length = Except.error GoErr.ioEOF := by
    unfold readAll
    exact readAllAux_past (l.length + 1) l (by omega)
  obtain ⟨j, rfl⟩ : ∃ j, k = (readAll l).length + j :=
    ⟨k - (readAll l).length, by omega⟩
  exact callResult_stable_add l (readAll l).length h0 j

/-- Witness for C5: the two-segment message, read a sixth time. -/
theorem claim_C5_witness :
    (readAll (str ("MSH|^~\\&\rMSH|^~\\&"))).length ≤ 5 ∧
    callResult (str ("MSH|^~\\&\rMSH|^~\\&")) 5 =
      Except.error GoErr.ioEOF :=
  ⟨by decide, claim_C5 _ 5 (by decide)⟩

/-- Claim C6: on every materialized message and every tag, `GetSegment`
returns a nil error, and its value is exactly the ordered sublist of the
message's segments carrying that tag (so an absent tag yields the empty
list, still with no error). -/
theorem claim_C6 (m : Message) (id : List Nat) :
    GetSegment (parseMessage m) id =
    ((readAll m.data).filter (fun s => typeOf m.fieldSep s = id), none) := by
  have h := lookupSegs_build m.fieldSep (readAll m.data) [] id
  simp only [lookupSegs, assocFind, Option.getD_none, List.nil_append] at h
  unfold GetSegment parseMessage buildIndex
  rw [h]

/-- Claim C7: `PID.5.1` parses to segment `PID`, field 5, component 1,
subcomponent 0, and `MSH.0` parses to segment `MSH`, field 0 with both
omitted trailing indices defaulting to 0. -/
theorem claim_C7 :
    NewLocation (str ("PID.5.1")) = some ⟨str ("PID"), 5, 1, 0⟩ ∧
    NewLocation (str ("MSH.0")) = some ⟨str ("MSH"), 0, 0, 0⟩ := by
  refine ⟨by decide, by decide⟩

/-- Claim C8: unmarshalling the annotated reference struct against the
materialized reference message binds every field to its addressed value,
trimmed — `PID.0.0` to the tag text `PID`, `PID.5.1` to `CURTIS`,
`PID.5.0` to `SMITH` and `MSH.2.0` to `CERNER` — and returns the nil
error. -/
theorem claim_C8 :
    (NewMessage refText).map
      (fun m => Unmarshal (parseMessage m) refSchema) =
    Except.ok (some (refBound, none)) := by decide

/-- Claim C1 (code evaluated at the failing input): binding the address
`PID.5.1` against the message `MSH|^~\&`, which has no `PID` segment,
panics — `Get` evaluates `seg[0]` on the empty slice `GetSegment`
returned (message.go:118), modelled as `none` — so the whole bind
crashes instead of leaving the target field at its default. -/
theorem claim_C1_panics :
    (NewMessage (str ("MSH|^~\\&"))).map
      (fun m => Unmarshal (parseMessage m) [⟨str ("PID.5.1"), true, []⟩]) =
      Except.ok none ∧
    Get pmW ⟨str ("PID"), 5, 1, 0⟩ = none := by
  refine ⟨by decide, by decide⟩

/-- Counterexample for C9: a target whose annotation names the absent tag
`OBX` makes `Unmarshal` panic (`none`), so `Unmarshal` does not return a
nil error for every target. -/
theorem claim_C9_counterexample :
    (NewMessage (str ("MSH|^~\\&\rPID|SMITH"))).map
      (fun m => Unmarshal (parseMessage m) [⟨str ("OBX.1.0"), true, []⟩]) =
    Except.ok none := by decide

/-- Claim C9 as amended: whenever `Unmarshal` returns at all (does not
panic), its error is nil — per-field lookup errors are discarded and
empty or unsettable fields are skipped — but a lookup whose segment tag
is absent panics instead of returning. -/
theorem claim_C9_amended (m : PMessage) (flds : List SchemaField)
    (r : List SchemaField × Option GoErr)
    (h : Unmarshal m flds = some r) : r.2 = none := by
  unfold Unmarshal at h
  cases hm : flds.mapM (bindField m) with
  | none =>
    rw [hm] at h
    exact Option.noConfusion h
  | some v =>
    rw [hm] at h
    simp only [Option.map_some'] at h
    injection h with h2
    rw [← h2]

/-- Witness for the amended C9 at a successful bind. -/
theorem claim_C9_witness :
    Unmarshal pmW [⟨str ("MSH.0"), true, []⟩] =
      some ([⟨str ("MSH.0"), true, str ("MSH")⟩], none) ∧
    (([⟨str ("MSH.0"), true, str ("MSH")⟩] : List SchemaField),
      (none : Option GoErr)).2 = none :=
  ⟨by decide, claim_C9_amended pmW [⟨str ("MSH.0"), true, []⟩]
    ([⟨str ("MSH.0"), true, str ("MSH")⟩], none) (by decide)⟩

/-- Claim C10: the short-buffer construction failure of `NewMessage` is
reported as the very same error value `io.EOF` that `ReadSegment` uses to
signal end-of-stream, so the two conditions are indistinguishable by
error value. -/
theorem claim_C10 (d s : List Nat) (e : GoErr) (hd : d.length < 8)
    (hs : (readSegment s).1 = Except.error e) :
    NewMessage d = Except.error e := by
  rw [readSegment_error_val s e hs]
  exact newMessage_short d hd

/-- Witness for C10 at the empty buffer and the exhausted stream. -/
theorem claim_C10_witness :
    ([] : List Nat).length < 8 ∧
    (readSegment ([] : List Nat)).1 = Except.error GoErr.ioEOF ∧
    NewMessage [] = Except.error GoErr.ioEOF :=
  ⟨by decide, by decide,
    claim_C10 [] [] GoErr.ioEOF (by decide) (by decide)⟩

end HL7
